import Mathlib

/-!
Verification of the `WebCrawler` program (`src/main.py`).

This file is a shallow embedding of the web crawler in `src/main.py`:
a recursive same-prefix crawler (`WebCrawler.crawl`) that builds an
insertion-ordered URL → text index, a case-insensitive substring search
(`WebCrawler.search`) and a result printer (`WebCrawler.print_results`).

The embedding models:
* the Python standard library URL functions the code calls
  (`urllib.parse.urlparse` / `urljoin`), executably, over character lists;
* the crawler state (`self.index`, `self.visited`) together with an
  instrumentation trace of `inserted`/`fetched` events, the printed output
  lines, and an `outOfFuel` flag (the Python recursion has no fuel; `fuel`
  bounds the recursion depth and `outOfFuel` records whether the bound was
  ever hit, so that fuel-independent statements can be made);
* the injected capabilities (`requests.get` + `BeautifulSoup`) as a single
  `Fetcher : String → Except String Page` returning the page's extracted
  text and the ordered list of anchor `href` attributes (`none` when the
  anchor has no `href` attribute).
-/

namespace WebCrawl

/-! ## Character and string primitives (Python semantics) -/

/-- ASCII alphabetic test, as `str.isascii() and str.isalpha()` on one char. -/
def isAsciiAlpha (c : Char) : Bool :=
  ('a' ≤ c && c ≤ 'z') || ('A' ≤ c && c ≤ 'Z')

/-- Characters allowed in a URL scheme (`urllib.parse.scheme_chars`). -/
def isSchemeChar (c : Char) : Bool :=
  isAsciiAlpha c || c.isDigit || c == '+' || c == '-' || c == '.'

/-- Python `str.lower`, restricted to the ASCII case mapping. -/
def pyLower (s : String) : String :=
  ⟨s.data.map Char.toLower⟩

/-- Python `str.startswith`: literal string-prefix test. -/
def pyStartsWith (s pre : String) : Bool :=
  pre.data.isPrefixOf s.data

/-- Substring test on char lists: `needle` occurs contiguously in the list. -/
def containsSub (needle : List Char) : List Char → Bool
  | [] => needle.isPrefixOf []
  | c :: rest => needle.isPrefixOf (c :: rest) || containsSub needle rest

/-- Python `needle in hay` on strings (substring containment). -/
def pyContains (hay needle : String) : Bool :=
  containsSub needle.data hay.data

/-- Split a char list at the first char satisfying `p`; the delimiter (when
found) stays at the head of the second component. -/
def spanUntil (p : Char → Bool) : List Char → List Char × List Char
  | [] => ([], [])
  | c :: cs =>
    if p c then ([], c :: cs)
    else
      let r := spanUntil p cs
      (c :: r.1, r.2)

/-- Python `s.split(d, 1)` when `d` occurs, else `(s, '')`
(as used for the `#` and `?` splits in `urllib.parse.urlsplit`). -/
def splitFirst (d : Char) (l : List Char) : List Char × List Char :=
  match spanUntil (· == d) l with
  | (a, []) => (a, [])
  | (a, _ :: b) => (a, b)

/-- Python `s.split(d)` (always at least one piece). -/
def splitOnChar (d : Char) : List Char → List (List Char)
  | [] => [[]]
  | c :: cs =>
    if c == d then [] :: splitOnChar d cs
    else
      match splitOnChar d cs with
      | [] => [[c]]
      | a :: rest => (c :: a) :: rest

/-- Python `'/'.join(pieces)`. -/
def joinSlash : List (List Char) → List Char
  | [] => []
  | [a] => a
  | a :: rest => a ++ '/' :: joinSlash rest

/-! ## `urllib.parse` model

`urlsplit`, `urlunsplit`, `urljoin` and the `params` handling below follow
the CPython implementation (`Lib/urllib/parse.py`, CPython 3.11): the
WHATWG sanitization (leading C0-control/space characters stripped, all
ASCII tab/CR/LF removed), the `ValueError` raised for a netloc with a
mismatched IPv6 bracket (`Invalid IPv6 URL`), and the bracketed-host
validation (`_check_bracketed_host`, backed by `ipaddress.ip_address`)
are modeled, so URL parsing is fallible (`Except String`), with the
`ValueError` message as the error payload.  The one knowingly silent
piece is `_checknetloc`'s NFKC-normalization check, which can raise only
for netlocs containing non-ASCII characters; theorems that assert
agreement with the program therefore restrict themselves to ASCII inputs
where they depend on parsing succeeding. -/

/-- Characters stripped from the front of a URL
(`_WHATWG_C0_CONTROL_OR_SPACE`, codepoints 0x00–0x20). -/
def isC0OrSpace (c : Char) : Bool := c.toNat ≤ 0x20

/-- Characters removed everywhere in a URL
(`_UNSAFE_URL_BYTES_TO_REMOVE`). -/
def isUnsafeUrlChar (c : Char) : Bool := c == '\t' || c == '\r' || c == '\n'

/-- The sanitization `urlsplit` applies to its `url` argument. -/
def sanitizeUrl (l : List Char) : List Char :=
  (l.dropWhile isC0OrSpace).filter (fun c => !(isUnsafeUrlChar c))

/-- The sanitization `urlsplit` applies to its `scheme` argument
(stripped on both ends, then unsafe bytes removed). -/
def sanitizeScheme (l : List Char) : List Char :=
  ((((l.dropWhile isC0OrSpace).reverse).dropWhile isC0OrSpace).reverse).filter
    (fun c => !(isUnsafeUrlChar c))

def isDecDigit (c : Char) : Bool := '0' ≤ c && c ≤ '9'

def isHexDigit (c : Char) : Bool :=
  isDecDigit c || ('a' ≤ c && c ≤ 'f') || ('A' ≤ c && c ≤ 'F')

/-- Numeric value of a decimal digit string. -/
def decVal (l : List Char) : Nat :=
  l.foldl (fun a c => 10 * a + (c.toNat - 48)) 0

/-- CPython `ipaddress` IPv4 octet: 1–3 ASCII digits, no leading zero,
value at most 255. -/
def validOctet (l : List Char) : Bool :=
  match l with
  | [] => false
  | c :: rest =>
    (c :: rest).all isDecDigit && (c :: rest).length ≤ 3 &&
    (match c, rest with | '0', _ :: _ => false | _, _ => true) &&
    decVal (c :: rest) ≤ 255

/-- CPython `ipaddress.IPv4Address` validity: exactly four valid octets. -/
def validIPv4 (l : List Char) : Bool :=
  l ≠ [] &&
  (let parts := splitOnChar '.' l
   parts.length == 4 && parts.all validOctet)

/-- CPython `ipaddress` IPv6 hextet: 1–4 hex digits. -/
def validHextet (l : List Char) : Bool :=
  l ≠ [] && l.length ≤ 4 && l.all isHexDigit

/-- CPython `ipaddress.IPv6Address._ip_int_from_string` validity (without
the scope id): at least 3 colon-separated parts, an optional IPv4-style
last part, at most one `::`, correct part counts, all hextets valid. -/
def validIPv6Core (l : List Char) : Bool :=
  if l = [] then false
  else
    let parts := splitOnChar ':' l
    if parts.length < 3 then false
    else
      let lastPart := parts.getLastD []
      let cont : List (List Char) → Bool := fun parts =>
        if parts.length > 9 then false
        else
          let interior := (parts.drop 1).dropLast
          let empties := interior.filter (· = [])
          if empties.length > 1 then false
          else if empties.length = 1 then
            let skipIdx := 1 + interior.indexOf []
            let partsHi := skipIdx
            let partsLo := parts.length - skipIdx - 1
            if parts.headD ['x'] = [] ∧ partsHi ≠ 1 then false
            else if parts.getLastD ['x'] = [] ∧ partsLo ≠ 1 then false
            else
              let partsHi := if parts.headD ['x'] = [] then partsHi - 1 else partsHi
              let partsLo := if parts.getLastD ['x'] = [] then partsLo - 1 else partsLo
              if 8 - (partsHi + partsLo) < 1 then false
              else
                (parts.take partsHi).all validHextet &&
                (parts.drop (parts.length - partsLo)).all validHextet
          else
            parts.length == 8 && parts.headD [] ≠ [] && parts.getLastD [] ≠ [] &&
            parts.all validHextet
      if '.' ∈ lastPart then
        if validIPv4 lastPart then cont (parts.dropLast ++ [['0'], ['0']])
        else false
      else cont parts

/-- CPython `ipaddress.IPv6Address` validity including an optional
non-empty `%scope` suffix. -/
def validIPv6 (l : List Char) : Bool :=
  match spanUntil (· == '%') l with
  | (addr, []) => validIPv6Core addr
  | (addr, _ :: scope) =>
    scope ≠ [] && scope.all (fun c => !(c == '%')) && validIPv6Core addr

/-- Python `repr()` of a string, for the ASCII content that can occur in a
sanitized URL: quote selection, backslash/quote escaping, and `\xHH`
escapes for the remaining control characters. -/
def pyReprStr (l : List Char) : List Char :=
  let q : Char := if '\'' ∈ l ∧ '"' ∉ l then '"' else '\''
  let hexDig : Nat → Char := fun n =>
    if n < 10 then Char.ofNat (48 + n) else Char.ofNat (87 + n)
  let esc : Char → List Char := fun c =>
    if c = '\\' then ['\\', '\\']
    else if c = q then ['\\', q]
    else if c.toNat < 0x20 ∨ c.toNat = 0x7f then
      ['\\', 'x', hexDig (c.toNat / 16), hexDig (c.toNat % 16)]
    else [c]
  q :: (l.flatMap esc) ++ [q]

/-- CPython `urllib.parse._check_bracketed_host`: a bracketed host must be
an IPvFuture literal (`v` + hex + `.` + rest) or a valid IPv6 address;
IPv4 addresses and everything else raise `ValueError`. -/
def checkBracketedHost (host : List Char) : Except String Unit :=
  match host with
  | 'v' :: rest =>
    let s := spanUntil (· == '.') rest
    match s.2 with
    | _ :: tail =>
      if s.1 ≠ [] ∧ s.1.all isHexDigit ∧ tail ≠ [] then Except.ok ()
      else Except.error "IPvFuture address is invalid"
    | [] => Except.error "IPvFuture address is invalid"
  | _ =>
    if validIPv4 host then Except.error "An IPv4 address cannot be in brackets"
    else if validIPv6 host then Except.ok ()
    else Except.error (⟨pyReprStr host⟩ ++ " does not appear to be an IPv4 or IPv6 address")

/-- The text between the first `[` of a netloc and the first `]` after it
(`netloc.partition('[')[2].partition(']')[0]`). -/
def bracketedHost (netloc : List Char) : List Char :=
  match (spanUntil (· == '[') netloc).2 with
  | _ :: rest => (spanUntil (· == ']') rest).1
  | [] => []

/-- Scheme extraction of `urllib.parse.urlsplit`: a leading
`ALPHA (ALPHA|DIGIT|'+'|'-'|'.')* ':'` is removed and lowercased, otherwise
the default scheme is used and the input is left intact. -/
def splitScheme (dflt : List Char) (l : List Char) : List Char × List Char :=
  match spanUntil (· == ':') l with
  | (c :: pre, ':' :: after) =>
    if isAsciiAlpha c && (c :: pre).all isSchemeChar then
      ((c :: pre).map Char.toLower, after)
    else (dflt, l)
  | _ => (dflt, l)

/-- Netloc extraction of `urllib.parse.urlsplit`: after the scheme, a
leading `//` introduces the netloc, which extends to the next `/`, `?` or
`#` (which stays with the remainder). -/
def splitNetloc : List Char → List Char × List Char
  | '/' :: '/' :: rest => spanUntil (fun c => c == '/' || c == '?' || c == '#') rest
  | l => ([], l)

/-- The five URL components returned by `urllib.parse.urlsplit`. -/
structure UrlParts where
  scheme : String
  netloc : String
  path : String
  query : String
  frag : String
deriving DecidableEq, Repr

/-- Python `urllib.parse.urlsplit(url, scheme=dfltScheme)` (with
`allow_fragments=True`, its default): sanitization, scheme/netloc split,
bracket validation (`ValueError` as `Except.error`), fragment and query
split. -/
def urlsplit (url : String) (dfltScheme : String) : Except String UrlParts :=
  let l := sanitizeUrl url.data
  let dflt := sanitizeScheme dfltScheme.data
  let p1 := splitScheme dflt l
  let p2 := splitNetloc p1.2
  let netloc := p2.1
  if ('[' ∈ netloc ∧ ']' ∉ netloc) ∨ (']' ∈ netloc ∧ '[' ∉ netloc) then
    Except.error "Invalid IPv6 URL"
  else
    match (if '[' ∈ netloc ∧ ']' ∈ netloc then checkBracketedHost (bracketedHost netloc)
           else Except.ok ()) with
    | Except.error e => Except.error e
    | Except.ok _ =>
      let p3 := splitFirst '#' p2.2
      let p4 := splitFirst '?' p3.1
      Except.ok ⟨⟨p1.1⟩, ⟨netloc⟩, ⟨p4.1⟩, ⟨p4.2⟩, ⟨p3.2⟩⟩

/-- Python `urllib.parse.uses_relative` (CPython 3.11). -/
def usesRelative : List String :=
  ["", "ftp", "http", "gopher", "nntp", "imap", "wais", "file", "https",
   "shttp", "mms", "prospero", "rtsp", "rtsps", "rtspu", "sftp", "svn",
   "svn+ssh", "ws", "wss"]

/-- Python `urllib.parse.uses_netloc` (CPython 3.11). -/
def usesNetloc : List String :=
  ["", "ftp", "http", "gopher", "nntp", "telnet", "imap", "wais", "file",
   "mms", "https", "shttp", "snews", "prospero", "rtsp", "rtsps", "rtspu",
   "rsync", "svn", "svn+ssh", "sftp", "nfs", "git", "git+ssh", "ws", "wss"]

/-- Python `urllib.parse.uses_params` (CPython 3.11). -/
def usesParams : List String :=
  ["", "ftp", "hdl", "prospero", "http", "imap", "https", "shttp", "rtsp",
   "rtsps", "rtspu", "sip", "sips", "mms", "sftp", "tel"]

/-- Python `urllib.parse._splitparams`: split the `;params` suffix off the
last path segment. -/
def splitParams (p : List Char) : List Char × List Char :=
  if '/' ∈ p then
    let segs := splitOnChar '/' p
    let last := segs.getLastD []
    if ';' ∈ last then
      let s := splitFirst ';' last
      (joinSlash (segs.dropLast ++ [s.1]), s.2)
    else (p, [])
  else splitFirst ';' p

/-- Python `urllib.parse.urlparse`: `urlsplit` plus the params split (for
schemes in `uses_params`), as a (five components, params) pair. -/
def pyUrlparse (url : String) (dfltScheme : String) :
    Except String (UrlParts × String) :=
  match urlsplit url dfltScheme with
  | Except.error e => Except.error e
  | Except.ok p =>
    if p.scheme ∈ usesParams ∧ ';' ∈ p.path.data then
      let s := splitParams p.path.data
      Except.ok ({ p with path := ⟨s.1⟩ }, ⟨s.2⟩)
    else Except.ok (p, "")

/-- Python `urllib.parse.urlunsplit` (CPython 3.11 condition for
re-introducing `//`). -/
def urlunsplit (p : UrlParts) : String :=
  let url := p.path
  let url :=
    if p.netloc ≠ "" ∨ (p.scheme ≠ "" ∧ p.scheme ∈ usesNetloc ∧ ¬ pyStartsWith url "//") then
      "//" ++ p.netloc ++ (if url ≠ "" ∧ ¬ pyStartsWith url "/" then "/" ++ url else url)
    else url
  let url := if p.scheme ≠ "" then p.scheme ++ ":" ++ url else url
  let url := if p.query ≠ "" then url ++ "?" ++ p.query else url
  if p.frag ≠ "" then url ++ "#" ++ p.frag else url

/-- Python `urllib.parse.urlunparse`: re-attach the params to the path,
then `urlunsplit`. -/
def urlunparse (p : UrlParts) (params : String) : String :=
  urlunsplit { p with path := if params ≠ "" then p.path ++ ";" ++ params else p.path }

/-- The `segments[1:-1] = filter(None, segments[1:-1])` step of
`urljoin`: drop empty segments, keeping the first and last untouched. -/
def keepLastFilter : List (List Char) → List (List Char)
  | [] => []
  | [a] => [a]
  | a :: rest => if a = [] then keepLastFilter rest else a :: keepLastFilter rest

/-- Apply `keepLastFilter` to everything after the first segment. -/
def filterMiddle : List (List Char) → List (List Char)
  | [] => []
  | a :: rest => a :: keepLastFilter rest

/-- The dot-segment resolution loop of `urljoin` (`..` pops, `.` is
skipped, popping an empty stack is ignored). -/
def resolveDots (acc : List (List Char)) : List (List Char) → List (List Char)
  | [] => acc
  | seg :: rest =>
    if seg = ['.', '.'] then resolveDots acc.dropLast rest
    else if seg = ['.'] then resolveDots acc rest
    else resolveDots (acc ++ [seg]) rest

/-- The pure part of `urljoin`, applied to the parsed base and url
components (`url` is the original second argument, returned untouched when
the scheme rules say so). -/
def urljoinCore (b : UrlParts) (bparams : String) (u : UrlParts) (uparams : String)
    (url : String) : String :=
  if u.scheme ≠ b.scheme ∨ u.scheme ∉ usesRelative then url
  else if u.scheme ∈ usesNetloc ∧ u.netloc ≠ "" then urlunparse u uparams
  else
    let netloc := if u.scheme ∈ usesNetloc then b.netloc else u.netloc
    if u.path = "" ∧ uparams = "" then
      urlunparse ⟨u.scheme, netloc, b.path,
        (if u.query ≠ "" then u.query else b.query), u.frag⟩ bparams
    else
      let baseParts := splitOnChar '/' b.path.data
      let baseParts := if baseParts.getLast? = some [] then baseParts else baseParts.dropLast
      let segments :=
        if pyStartsWith u.path "/" then splitOnChar '/' u.path.data
        else filterMiddle (baseParts ++ splitOnChar '/' u.path.data)
      let resolved := resolveDots [] segments
      let resolved :=
        if segments.getLast? = some ['.'] ∨ segments.getLast? = some ['.', '.'] then
          resolved ++ [[]]
        else resolved
      let path := joinSlash resolved
      urlunparse ⟨u.scheme, netloc, (if path = [] then "/" else ⟨path⟩), u.query, u.frag⟩ uparams

/-- Python `urllib.parse.urljoin(base, url)`: standard reference
resolution as implemented by CPython 3.11; parsing either argument can
raise, which propagates as `Except.error`. -/
def urljoin (base url : String) : Except String String :=
  if base = "" then Except.ok url
  else if url = "" then Except.ok base
  else
    match pyUrlparse base "" with
    | Except.error e => Except.error e
    | Except.ok (b, bparams) =>
      match pyUrlparse url b.scheme with
      | Except.error e => Except.error e
      | Except.ok (u, uparams) => Except.ok (urljoinCore b bparams u uparams url)

/-- Python `urlparse(href).netloc` as used on line 29 of `src/main.py`;
raising (`Except.error`) models the `ValueError` escaping that line. -/
def netlocOf (href : String) : Except String String :=
  match urlsplit href "" with
  | Except.error e => Except.error e
  | Except.ok p => Except.ok p.netloc

/-! ## The crawler (`class WebCrawler`, `src/main.py` lines 10–54) -/

/-- Lines 28–32 of `crawl`: an href with a netloc is used as-is, any other
href is resolved against the current page's URL with `urljoin`; a
`ValueError` raised by either `urlparse` (line 29) or `urljoin` (line 30)
propagates (`Except.error`). -/
def resolveLink (pageUrl href : String) : Except String String :=
  match netlocOf href with
  | Except.error e => Except.error e
  | Except.ok nl => if nl = "" then urljoin pageUrl href else Except.ok href

/-- Strings of ASCII characters only.  On them the model's URL parsing
agrees exactly with CPython's: the one CPython check the model leaves out,
`_checknetloc`'s NFKC round-trip, can reject only netlocs containing
non-ASCII characters. -/
def allAscii (s : String) : Bool := s.data.all fun c => decide (c.toNat ≤ 127)

/-- Python `base_url or url` (line 35): `None` and the empty string are
falsy, any other string is itself. -/
def pyOr (baseUrl : Option String) (url : String) : String :=
  match baseUrl with
  | none => url
  | some b => if b = "" then url else b

/-- Instrumentation events recorded by the embedding: `inserted u` when
`u` is added to `self.visited` (line 18), `fetched u` when `requests.get(u)`
is invoked (line 21). -/
inductive Event where
  | inserted (url : String)
  | fetched (url : String)
deriving DecidableEq, Repr

/-- What the injected fetch+parse capabilities produce for one URL:
the page's extracted visible text (`soup.get_text()`) and the ordered
`href` attributes of its anchors (`link.get('href')`, `none` when the
attribute is missing). -/
structure Page where
  text : String
  anchors : List (Option String)
deriving DecidableEq, Repr

/-- The combined `requests.get` + `BeautifulSoup` capability; `Except.error e`
models an exception with description `e` caught on line 38. -/
abbrev Fetcher := String → Except String Page

/-- The crawler's state: `index` is `self.index` (a Python dict, i.e. an
insertion-ordered association list with unique keys), `visited` is
`self.visited` (as the list of its elements in insertion order).  `trace`,
`output` and `outOfFuel` are instrumentation: the `inserted`/`fetched`
events in order, the lines printed so far, and whether the fuel bound of
the embedding was ever hit. -/
structure CrawlState where
  index : List (String × String)
  visited : List String
  trace : List Event
  output : List String
  outOfFuel : Bool
deriving DecidableEq, Repr

/-- A freshly constructed `WebCrawler()` (lines 11–13). -/
def initState : CrawlState :=
  ⟨[], [], [], [], false⟩

/-- Python dict assignment `self.index[url] = text` (line 23): update in
place if the key exists, else append (insertion order preserved). -/
def setIndex : List (String × String) → String → String → List (String × String)
  | [], k, v => [(k, v)]
  | (k', v') :: rest, k, v =>
    if k' = k then (k, v) :: rest else (k', v') :: setIndex rest k v

/-- The body of the `for link in soup.find_all('a')` loop for one anchor
(lines 25–37), parameterized by the recursive call `rec` (which, like
Python's `crawl`, never raises).  The second component is a pending
exception: `some e` when URL resolution raised a `ValueError`, which in
Python propagates out of the loop to the `except` on line 38. -/
def crawlStep (rec : String → Option String → CrawlState → CrawlState)
    (pageUrl : String) (baseUrl : Option String) (s : CrawlState) :
    Option String → CrawlState × Option String
  | none => (s, none)
  | some href =>
    if href = "" then (s, none)
    else
      match resolveLink pageUrl href with
      | Except.error e => (s, some e)
      | Except.ok full =>
        let base := pyOr baseUrl pageUrl
        if pyStartsWith full base then (rec full (some base) s, none) else (s, none)

/-- The `for link in soup.find_all('a')` loop (lines 25–37): anchors are
processed in order until one raises, which aborts the remainder of the
loop and propagates the exception. -/
def crawlLinks (rec : String → Option String → CrawlState → CrawlState)
    (pageUrl : String) (baseUrl : Option String) :
    List (Option String) → CrawlState → CrawlState × Option String
  | [], s => (s, none)
  | a :: rest, s =>
    match crawlStep rec pageUrl baseUrl s a with
    | (s', none) => crawlLinks rec pageUrl baseUrl rest s'
    | (s', some e) => (s', some e)

/-- The `except` handler of `crawl` (lines 38–39) applied to the loop's
outcome: a pending exception is caught here, printing the current page's
diagnostic line; either way the frame returns normally. -/
def crawlPost (url : String) : CrawlState × Option String → CrawlState
  | (s, none) => s
  | (s, some e) => { s with output := s.output ++ ["Error crawling " ++ url ++ ": " ++ e] }

/-- Method `WebCrawler.crawl(url, base_url)` (lines 15–39).  `fuel` bounds the
recursion depth of the embedding (Python has no such bound); a call on an
unvisited URL with no fuel left sets `outOfFuel` instead of recursing. -/
def crawl (F : Fetcher) : Nat → String → Option String → CrawlState → CrawlState
  | 0, url, _, s =>
    if url ∈ s.visited then s else { s with outOfFuel := true }
  | fuel + 1, url, baseUrl, s =>
    if url ∈ s.visited then s
    else
      let s1 := { s with visited := s.visited ++ [url],
                         trace := s.trace ++ [Event.inserted url] }
      let s2 := { s1 with trace := s1.trace ++ [Event.fetched url] }
      match F url with
      | Except.error e =>
        { s2 with output := s2.output ++ ["Error crawling " ++ url ++ ": " ++ e] }
      | Except.ok page =>
        let s3 := { s2 with index := setIndex s2.index url page.text }
        crawlPost url (crawlLinks (crawl F fuel) url baseUrl page.anchors s3)

/-- Method `WebCrawler.search(keyword)` (lines 41–46). -/
def search (s : CrawlState) (keyword : String) : List String :=
  (s.index.filter (fun p => pyContains (pyLower p.2) (pyLower keyword))).map Prod.fst

/-- Method `WebCrawler.print_results(results)` (lines 48–54), as the list of
printed lines. -/
def print_results (results : List String) : List String :=
  if results ≠ [] then "Search results:" :: results.map (fun r => "- " ++ r)
  else ["No results found."]

/-! ## Derived observations on the instrumentation -/

/-- The URLs inserted into `self.visited`, in trace order. -/
def insertedEvents (tr : List Event) : List String :=
  tr.filterMap (fun e => match e with | Event.inserted u => some u | _ => none)

/-- The URLs passed to `requests.get`, in trace order. -/
def fetchedEvents (tr : List Event) : List String :=
  tr.filterMap (fun e => match e with | Event.fetched u => some u | _ => none)

/-- The keys of the index, in insertion order. -/
def indexKeys (idx : List (String × String)) : List String :=
  idx.map Prod.fst

/-- Every fetch of a URL is preceded in the trace by its insertion into
`self.visited`. -/
def Precedes (tr : List Event) : Prop :=
  ∀ u t1 t2, tr = t1 ++ Event.fetched u :: t2 → Event.inserted u ∈ t1

/-! ## Basic lemmas about the observations -/

theorem insertedEvents_append (a b : List Event) :
    insertedEvents (a ++ b) = insertedEvents a ++ insertedEvents b :=
  List.filterMap_append a b _

theorem fetchedEvents_append (a b : List Event) :
    fetchedEvents (a ++ b) = fetchedEvents a ++ fetchedEvents b :=
  List.filterMap_append a b _

theorem insertedEvents_pair (u : String) :
    insertedEvents [Event.inserted u, Event.fetched u] = [u] := rfl

theorem fetchedEvents_pair (u : String) :
    fetchedEvents [Event.inserted u, Event.fetched u] = [u] := rfl

theorem precedes_nil : Precedes [] := by
  intro u t1 t2 h
  exact absurd h.symm (by simp)

theorem precedes_append {a b : List Event} (ha : Precedes a) (hb : Precedes b) :
    Precedes (a ++ b) := by
  intro u t1 t2 h
  rcases List.append_eq_append_iff.mp h with ⟨a', h1, h2⟩ | ⟨c', h1, h2⟩
  · subst h1
    exact List.mem_append_right a (hb u a' t2 h2)
  · rcases c' with _ | ⟨x, c''⟩
    · simp only [List.nil_append] at h2
      exact absurd (hb u [] t2 (by simpa using h2.symm)) (by simp)
    · simp only [List.cons_append] at h2
      obtain ⟨hx, -⟩ := List.cons.inj h2
      exact ha u t1 c'' (by rw [h1, ← hx])

theorem precedes_pair {tr : List Event} (u : String) (h : Precedes tr) :
    Precedes (tr ++ [Event.inserted u, Event.fetched u]) := by
  refine precedes_append h ?_
  intro v t1 t2 hv
  rcases t1 with _ | ⟨x, t1'⟩
  · simp at hv
  · rcases t1' with _ | ⟨y, t1''⟩
    · simp only [List.cons_append, List.nil_append] at hv
      obtain ⟨hx, hv'⟩ := List.cons.inj hv
      obtain ⟨hy, -⟩ := List.cons.inj hv'
      subst hx
      rw [show v = u from (Event.fetched.inj hy.symm)]
      simp
    · rcases t1'' with _ | ⟨z, t1'''⟩ <;> simp at hv

/-! ## Lemmas about `setIndex` -/

theorem mem_indexKeys_setIndex {idx : List (String × String)} {k : String}
    (url v : String) (h : k ∈ indexKeys idx) : k ∈ indexKeys (setIndex idx url v) := by
  induction idx with
  | nil => simp [indexKeys] at h
  | cons p rest ih =>
    simp only [setIndex]
    split
    · rename_i heq
      simp only [indexKeys, List.map_cons, List.mem_cons] at h ⊢
      rcases h with h | h
      · exact Or.inl (h.trans heq)
      · exact Or.inr h
    · simp only [indexKeys, List.map_cons, List.mem_cons] at h ⊢
      rcases h with h | h
      · exact Or.inl h
      · exact Or.inr (ih h)

theorem self_mem_indexKeys_setIndex (idx : List (String × String)) (url v : String) :
    url ∈ indexKeys (setIndex idx url v) := by
  induction idx with
  | nil => simp [setIndex, indexKeys]
  | cons p rest ih =>
    simp only [setIndex]
    split
    · simp [indexKeys]
    · simpa [indexKeys] using Or.inr ih

theorem mem_indexKeys_setIndex_cases {idx : List (String × String)} {k url v : String}
    (h : k ∈ indexKeys (setIndex idx url v)) : k ∈ indexKeys idx ∨ k = url := by
  induction idx with
  | nil => simpa [setIndex, indexKeys, eq_comm] using h
  | cons p rest ih =>
    simp only [setIndex] at h
    split at h
    · rename_i heq
      simp only [indexKeys, List.map_cons, List.mem_cons] at h ⊢
      rcases h with h | h
      · exact Or.inr h
      · exact Or.inl (Or.inr h)
    · simp only [indexKeys, List.map_cons, List.mem_cons] at h ⊢
      rcases h with h | h
      · exact Or.inl (Or.inl h)
      · rcases ih h with h' | h'
        · exact Or.inl (Or.inr h')
        · exact Or.inr h'

/-! ## A generic preservation principle for `crawl` -/

theorem crawlStep_pres (P : CrawlState → Prop)
    (rec : String → Option String → CrawlState → CrawlState)
    (hrec : ∀ u b s, P s → P (rec u b s)) :
    ∀ pu b s a, P s → P (crawlStep rec pu b s a).1 := by
  intro pu b s a hP
  cases a with
  | none => exact hP
  | some href =>
    simp only [crawlStep]
    split
    · exact hP
    · split
      · exact hP
      · split
        · exact hrec _ _ _ hP
        · exact hP

theorem crawlLinks_pres (P : CrawlState → Prop)
    (rec : String → Option String → CrawlState → CrawlState)
    (hrec : ∀ u b s, P s → P (rec u b s)) :
    ∀ anchors pu b s, P s → P (crawlLinks rec pu b anchors s).1 := by
  intro anchors
  induction anchors with
  | nil => intro pu b s h; exact h
  | cons a rest ih =>
    intro pu b s h
    have hstep := crawlStep_pres P rec hrec pu b s a h
    simp only [crawlLinks]
    split
    · rename_i s' heq
      rw [heq] at hstep
      exact ih pu b s' hstep
    · rename_i s' e heq
      rw [heq] at hstep
      exact hstep

theorem crawlPost_pres (P : CrawlState → Prop)
    (hout : ∀ s line, P s → P { s with output := s.output ++ [line] })
    (url : String) (t : CrawlState × Option String) (h : P t.1) :
    P (crawlPost url t) := by
  rcases t with ⟨s, _ | e⟩
  · exact h
  · exact hout s _ h

theorem crawl_pres (F : Fetcher) (P : CrawlState → Prop)
    (hins : ∀ s url, url ∉ s.visited → P s →
      P { s with visited := s.visited ++ [url],
                 trace := s.trace ++ [Event.inserted url, Event.fetched url] })
    (hidx : ∀ s url v, url ∈ s.visited → P s → P { s with index := setIndex s.index url v })
    (hout : ∀ s line, P s → P { s with output := s.output ++ [line] })
    (hfuel : ∀ s, P s → P { s with outOfFuel := true }) :
    ∀ fuel url b s, P s → P (crawl F fuel url b s) := by
  intro fuel
  induction fuel with
  | zero =>
    intro url b s hP
    simp only [crawl]
    split
    · exact hP
    · exact hfuel s hP
  | succ fuel ih =>
    intro url b s hP
    simp only [crawl]
    split
    · exact hP
    · rename_i hvis
      have h2 : P { s with visited := s.visited ++ [url],
                           trace := (s.trace ++ [Event.inserted url]) ++ [Event.fetched url] } := by
        rw [List.append_assoc]
        exact hins s url hvis hP
      cases hF : F url with
      | error e => exact hout _ _ h2
      | ok page =>
        refine crawlPost_pres P hout url _ ?_
        refine crawlLinks_pres P _ (fun u b' t hQ => ih u b' t hQ) page.anchors url b _ ?_
        exact hidx _ url _ (by simp) h2

/-- Step 1 of `crawl` (lines 16–17): a URL already in `self.visited` makes
`crawl` return at once, with no fetch and no state change. -/
theorem crawl_noop (F : Fetcher) (fuel : Nat) (u : String) (b : Option String)
    (s : CrawlState) (h : u ∈ s.visited) : crawl F fuel u b s = s := by
  cases fuel <;> simp [crawl, h]

/-! ## Monotonicity: a crawl only ever appends to the state -/

/-- State `s'` extends `s`: trace, visited and output grow by appending, index
keys are preserved, and a hit fuel bound stays recorded. -/
def Extends (s s' : CrawlState) : Prop :=
  s.trace <+: s'.trace ∧ s.visited <+: s'.visited ∧ s.output <+: s'.output ∧
  (∀ k, k ∈ indexKeys s.index → k ∈ indexKeys s'.index) ∧
  (s.outOfFuel = true → s'.outOfFuel = true)

theorem extends_refl (s : CrawlState) : Extends s s :=
  ⟨List.prefix_refl _, List.prefix_refl _, List.prefix_refl _, fun _ h => h, id⟩

theorem extends_trans {a b c : CrawlState} (h1 : Extends a b) (h2 : Extends b c) :
    Extends a c :=
  ⟨h1.1.trans h2.1, h1.2.1.trans h2.2.1, h1.2.2.1.trans h2.2.2.1,
   fun k hk => h2.2.2.2.1 k (h1.2.2.2.1 k hk), fun hf => h2.2.2.2.2 (h1.2.2.2.2 hf)⟩

theorem crawl_extends (F : Fetcher) (fuel : Nat) (url : String) (b : Option String)
    (s : CrawlState) : Extends s (crawl F fuel url b s) := by
  refine crawl_pres F (Extends s) ?_ ?_ ?_ ?_ fuel url b s (extends_refl s)
  · intro t u _ hP
    refine extends_trans hP ⟨List.prefix_append _ _, List.prefix_append _ _,
      List.prefix_refl _, fun _ h => h, id⟩
  · intro t u v _ hP
    exact extends_trans hP ⟨List.prefix_refl _, List.prefix_refl _, List.prefix_refl _,
      fun k hk => mem_indexKeys_setIndex u v hk, id⟩
  · intro t line hP
    exact extends_trans hP ⟨List.prefix_refl _, List.prefix_refl _, List.prefix_append _ _,
      fun _ h => h, id⟩
  · intro t hP
    exact extends_trans hP ⟨List.prefix_refl _, List.prefix_refl _, List.prefix_refl _,
      fun _ h => h, fun _ => rfl⟩

theorem crawlPost_extends (url : String) (t : CrawlState × Option String) :
    Extends t.1 (crawlPost url t) := by
  rcases t with ⟨s, _ | e⟩
  · exact extends_refl s
  · exact ⟨List.prefix_refl _, List.prefix_refl _, List.prefix_append _ _,
      fun _ h => h, id⟩

theorem crawlLinks_extends (F : Fetcher) (fuel : Nat) (pu : String)
    (b : Option String) (anchors : List (Option String)) (s : CrawlState) :
    Extends s (crawlLinks (crawl F fuel) pu b anchors s).1 :=
  crawlLinks_pres (Extends s) _
    (fun u b' t h => extends_trans h (crawl_extends F fuel u b' t))
    anchors pu b s (extends_refl s)

/-! ## The visited-set invariant -/

/-- The crawl invariant: `visited` has no duplicates and is exactly the
sequence of `inserted` events; every fetched URL is visited; no URL is
fetched twice; every fetch is preceded by its insertion. -/
def Inv (s : CrawlState) : Prop :=
  s.visited.Nodup ∧ insertedEvents s.trace = s.visited ∧
  (∀ u, u ∈ fetchedEvents s.trace → u ∈ s.visited) ∧
  (fetchedEvents s.trace).Nodup ∧ Precedes s.trace

theorem inv_init : Inv initState :=
  ⟨List.nodup_nil, rfl, fun _ h => by simp [initState, fetchedEvents] at h,
   List.nodup_nil, precedes_nil⟩

theorem crawl_inv (F : Fetcher) (fuel : Nat) (url : String) (b : Option String)
    (s : CrawlState) (h : Inv s) : Inv (crawl F fuel url b s) := by
  refine crawl_pres F Inv ?_ ?_ ?_ ?_ fuel url b s h
  · rintro t u hu ⟨h1, h2, h3, h4, h5⟩
    refine ⟨?_, ?_, ?_, ?_, ?_⟩
    · exact List.Nodup.append h1 (List.nodup_singleton u)
        (fun x hx hxu => hu (by rwa [List.mem_singleton.mp hxu] at hx))
    · show insertedEvents (t.trace ++ [Event.inserted u, Event.fetched u]) = t.visited ++ [u]
      rw [insertedEvents_append, h2, insertedEvents_pair]
    · intro v hv
      rw [show fetchedEvents (t.trace ++ [Event.inserted u, Event.fetched u]) =
            fetchedEvents t.trace ++ [u] by rw [fetchedEvents_append, fetchedEvents_pair],
          List.mem_append] at hv
      rcases hv with hv | hv
      · exact List.mem_append_left _ (h3 v hv)
      · exact List.mem_append_right _ hv
    · rw [show fetchedEvents (t.trace ++ [Event.inserted u, Event.fetched u]) =
            fetchedEvents t.trace ++ [u] by rw [fetchedEvents_append, fetchedEvents_pair]]
      exact List.Nodup.append h4 (List.nodup_singleton u)
        (fun x hx hxu => hu (by rw [← List.mem_singleton.mp hxu] at *; exact h3 x hx))
    · exact precedes_pair u h5
  · rintro t u v _ ⟨h1, h2, h3, h4, h5⟩; exact ⟨h1, h2, h3, h4, h5⟩
  · rintro t line ⟨h1, h2, h3, h4, h5⟩; exact ⟨h1, h2, h3, h4, h5⟩
  · rintro t ⟨h1, h2, h3, h4, h5⟩; exact ⟨h1, h2, h3, h4, h5⟩

/-- Once a URL is in `self.visited`, no later crawl activity fetches it
again: the number of `fetched u` events never changes. -/
theorem crawl_no_refetch (F : Fetcher) (u : String) (fuel : Nat) (url : String)
    (b : Option String) (s : CrawlState) (h : u ∈ s.visited) :
    (fetchedEvents (crawl F fuel url b s).trace).count u =
      (fetchedEvents s.trace).count u := by
  have key : ∀ t, (u ∈ t.visited ∧ (fetchedEvents t.trace).count u =
      (fetchedEvents s.trace).count u) →
      (u ∈ (crawl F fuel url b t).visited ∧
        (fetchedEvents (crawl F fuel url b t).trace).count u =
          (fetchedEvents s.trace).count u) := by
    intro t ht
    refine crawl_pres F
      (fun t' => u ∈ t'.visited ∧
        (fetchedEvents t'.trace).count u = (fetchedEvents s.trace).count u)
      ?_ ?_ ?_ ?_ fuel url b t ht
    · rintro t' v hv ⟨m1, m2⟩
      have hne : v ≠ u := fun hvu => hv (hvu ▸ m1)
      refine ⟨List.mem_append_left _ m1, ?_⟩
      rw [fetchedEvents_append, fetchedEvents_pair, List.count_append, ← m2]
      simp [List.count_singleton', hne]
    · rintro t' v w _ ⟨m1, m2⟩; exact ⟨m1, m2⟩
    · rintro t' line ⟨m1, m2⟩; exact ⟨m1, m2⟩
    · rintro t' ⟨m1, m2⟩; exact ⟨m1, m2⟩
  exact (key s ⟨h, rfl⟩).2

/-! ## Scope containment -/

theorem fetchedEvents_ins (u : String) : fetchedEvents [Event.inserted u] = [] := rfl

theorem fetchedEvents_fet (u : String) : fetchedEvents [Event.fetched u] = [u] := rfl

theorem crawlPost_trace (url : String) (t : CrawlState × Option String) :
    (crawlPost url t).trace = t.1.trace := by
  rcases t with ⟨s, _ | e⟩ <;> rfl

theorem crawlPost_index (url : String) (t : CrawlState × Option String) :
    (crawlPost url t).index = t.1.index := by
  rcases t with ⟨s, _ | e⟩ <;> rfl

theorem crawlPost_visited (url : String) (t : CrawlState × Option String) :
    (crawlPost url t).visited = t.1.visited := by
  rcases t with ⟨s, _ | e⟩ <;> rfl

theorem crawlPost_outOfFuel (url : String) (t : CrawlState × Option String) :
    (crawlPost url t).outOfFuel = t.1.outOfFuel := by
  rcases t with ⟨s, _ | e⟩ <;> rfl

/-- The link loop only hands in-scope URLs to the recursive call: any URL
fetched or indexed during the loop was already fetched/indexed before, or
starts with the (non-empty, threaded) scope base. -/
theorem crawlLinks_scope (rec : String → Option String → CrawlState → CrawlState)
    (base : String)
    (hrec : ∀ v s, (∀ u, u ∈ fetchedEvents (rec v (some base) s).trace →
        u ∈ fetchedEvents s.trace ∨ u = v ∨ pyStartsWith u base = true) ∧
      (∀ u, u ∈ indexKeys (rec v (some base) s).index →
        u ∈ indexKeys s.index ∨ u = v ∨ pyStartsWith u base = true)) :
    ∀ anchors pageUrl (b' : Option String) s, pyOr b' pageUrl = base →
      (∀ u, u ∈ fetchedEvents (crawlLinks rec pageUrl b' anchors s).1.trace →
        u ∈ fetchedEvents s.trace ∨ pyStartsWith u base = true) ∧
      (∀ u, u ∈ indexKeys (crawlLinks rec pageUrl b' anchors s).1.index →
        u ∈ indexKeys s.index ∨ pyStartsWith u base = true) := by
  intro anchors
  induction anchors with
  | nil => intro pageUrl b' s _; exact ⟨fun u h => Or.inl h, fun u h => Or.inl h⟩
  | cons a rest ih =>
    intro pageUrl b' s hbase
    have step : (∀ u, u ∈ fetchedEvents (crawlStep rec pageUrl b' s a).1.trace →
        u ∈ fetchedEvents s.trace ∨ pyStartsWith u base = true) ∧
        (∀ u, u ∈ indexKeys (crawlStep rec pageUrl b' s a).1.index →
          u ∈ indexKeys s.index ∨ pyStartsWith u base = true) := by
      cases a with
      | none => exact ⟨fun u h => Or.inl h, fun u h => Or.inl h⟩
      | some href =>
        simp only [crawlStep]
        split
        · exact ⟨fun u h => Or.inl h, fun u h => Or.inl h⟩
        · split
          · exact ⟨fun u h => Or.inl h, fun u h => Or.inl h⟩
          · rw [hbase]
            split
            · rename_i hsw
              constructor
              · intro u h
                rcases (hrec _ s).1 u h with h' | h' | h'
                · exact Or.inl h'
                · exact Or.inr (h' ▸ hsw)
                · exact Or.inr h'
              · intro u h
                rcases (hrec _ s).2 u h with h' | h' | h'
                · exact Or.inl h'
                · exact Or.inr (h' ▸ hsw)
                · exact Or.inr h'
            · exact ⟨fun u h => Or.inl h, fun u h => Or.inl h⟩
    simp only [crawlLinks]
    split
    · rename_i s' heq
      rw [heq] at step
      refine ⟨fun u h => ?_, fun u h => ?_⟩
      · rcases (ih pageUrl b' s' hbase).1 u h with h' | h'
        · exact step.1 u h'
        · exact Or.inr h'
      · rcases (ih pageUrl b' s' hbase).2 u h with h' | h'
        · exact step.2 u h'
        · exact Or.inr h'
    · rename_i s' e heq
      rw [heq] at step
      exact step

/-- Any URL fetched or indexed by a `crawl` frame whose effective scope base
`pyOr b url` is the non-empty `base` was fetched/indexed before, is the
frame's own `url`, or starts with `base`. -/
theorem crawl_scope_aux (F : Fetcher) (base : String) (hb : base ≠ "") :
    ∀ (fuel : Nat) (url : String) (b : Option String) (s : CrawlState),
      pyOr b url = base →
      (∀ u, u ∈ fetchedEvents (crawl F fuel url b s).trace →
        u ∈ fetchedEvents s.trace ∨ u = url ∨ pyStartsWith u base = true) ∧
      (∀ u, u ∈ indexKeys (crawl F fuel url b s).index →
        u ∈ indexKeys s.index ∨ u = url ∨ pyStartsWith u base = true) := by
  intro fuel
  induction fuel with
  | zero =>
    intro url b s _
    simp only [crawl]
    split
    · exact ⟨fun u h => Or.inl h, fun u h => Or.inl h⟩
    · exact ⟨fun u h => Or.inl h, fun u h => Or.inl h⟩
  | succ fuel ih =>
    intro url b s hbase
    simp only [crawl]
    split
    · exact ⟨fun u h => Or.inl h, fun u h => Or.inl h⟩
    · have htr : ∀ u, u ∈ fetchedEvents ((s.trace ++ [Event.inserted url]) ++
          [Event.fetched url]) → u ∈ fetchedEvents s.trace ∨ u = url := by
        intro u h
        rw [fetchedEvents_append, fetchedEvents_append, fetchedEvents_ins,
          fetchedEvents_fet] at h
        simpa using h
      cases hF : F url with
      | error e =>
        exact ⟨fun u h => (htr u h).imp id Or.inl, fun u h => Or.inl h⟩
      | ok page =>
        have hrec : ∀ v t, (∀ u, u ∈ fetchedEvents (crawl F fuel v (some base) t).trace →
            u ∈ fetchedEvents t.trace ∨ u = v ∨ pyStartsWith u base = true) ∧
            (∀ u, u ∈ indexKeys (crawl F fuel v (some base) t).index →
              u ∈ indexKeys t.index ∨ u = v ∨ pyStartsWith u base = true) :=
          fun v t => ih v (some base) t (by simp [pyOr, hb])
        have hl := fun t => crawlLinks_scope (crawl F fuel) base hrec page.anchors url
          b t hbase
        refine ⟨fun u h => ?_, fun u h => ?_⟩
        · rw [crawlPost_trace] at h
          rcases (hl _).1 u h with h' | h'
          · exact (htr u h').imp id Or.inl
          · exact Or.inr (Or.inr h')
        · rw [crawlPost_index] at h
          rcases (hl _).2 u h with h' | h'
          · rcases mem_indexKeys_setIndex_cases h' with h'' | h''
            · exact Or.inl h''
            · exact Or.inr (Or.inl h'')
          · exact Or.inr (Or.inr h')

/-! ## Termination: enough fuel for a finite reachable in-scope set -/

/-- The number of URLs of `U` not yet visited — the measure that bounds the
remaining recursion depth. -/
def unvisitedCount (U : List String) (vis : List String) : Nat :=
  (U.filter (fun v => decide (v ∉ vis))).length

theorem unvisitedCount_nil (U : List String) : unvisitedCount U [] = U.length := by
  simp [unvisitedCount]

theorem unvisitedCount_mono {vis vis' : List String} (U : List String)
    (h : vis ⊆ vis') : unvisitedCount U vis' ≤ unvisitedCount U vis := by
  refine List.Sublist.length_le (List.monotone_filter_right U ?_)
  intro a ha
  simp only [decide_eq_true_eq] at ha ⊢
  exact fun hmem => ha (h hmem)

theorem unvisitedCount_strict {U vis : List String} {url : String}
    (hU : url ∈ U) (hvis : url ∉ vis) :
    unvisitedCount U (vis ++ [url]) < unvisitedCount U vis := by
  have hsub : List.Sublist (U.filter (fun v => decide (v ∉ vis ++ [url])))
      (U.filter (fun v => decide (v ∉ vis))) := by
    refine List.monotone_filter_right U ?_
    intro a ha
    simp only [decide_eq_true_eq, List.mem_append] at ha ⊢
    exact fun hmem => ha (Or.inl hmem)
  refine Nat.lt_of_le_of_ne (List.Sublist.length_le hsub) ?_
  intro heq
  have heq' := List.Sublist.eq_of_length hsub heq
  have hmem : url ∈ U.filter (fun v => decide (v ∉ vis)) :=
    List.mem_filter.mpr ⟨hU, by simpa using hvis⟩
  rw [← heq'] at hmem
  have := (List.mem_filter.mp hmem).2
  simp at this

/-- The traversal's link graph is confined to `U`: every resolvable
in-scope link of every page of `U` lands back in `U` (an href whose
resolution raises contributes no URL: it aborts its page's loop). -/
def closedF (F : Fetcher) (base : String) (U : List String) : Bool :=
  U.all fun u =>
    match F u with
    | Except.error _ => true
    | Except.ok page =>
      page.anchors.all fun a =>
        match a with
        | none => true
        | some href =>
          if href = "" then true
          else
            match resolveLink u href with
            | Except.error _ => true
            | Except.ok full => !(pyStartsWith full base) || decide (full ∈ U)

theorem closedF_spec {F : Fetcher} {base : String} {U : List String}
    (h : closedF F base U = true) {u : String} (hu : u ∈ U) {page : Page}
    (hF : F u = Except.ok page) {href full : String} (ha : some href ∈ page.anchors)
    (hne : href ≠ "") (hres : resolveLink u href = Except.ok full)
    (hsw : pyStartsWith full base = true) : full ∈ U := by
  rw [closedF, List.all_eq_true] at h
  have h1 := h u hu
  rw [hF, List.all_eq_true] at h1
  have h2 := h1 _ ha
  simp only [hne, if_false, hres, hsw, Bool.not_true, Bool.false_or,
    decide_eq_true_eq] at h2
  exact h2

theorem crawlLinks_fuel_ok (rec : String → Option String → CrawlState → CrawlState)
    (base : String) (U : List String) (fuel : Nat)
    (hrec : ∀ v s, v ∈ U → s.outOfFuel = false → unvisitedCount U s.visited ≤ fuel →
      (rec v (some base) s).outOfFuel = false ∧
      (∀ w, w ∈ (rec v (some base) s).visited → w ∈ s.visited ∨ w ∈ U))
    (hmono : ∀ v b' s, s.visited <+: (rec v b' s).visited) :
    ∀ (anchors : List (Option String)) (pageUrl : String) (b' : Option String)
      (s : CrawlState), pyOr b' pageUrl = base →
      (∀ href full, some href ∈ anchors → href ≠ "" →
        resolveLink pageUrl href = Except.ok full →
        pyStartsWith full base = true → full ∈ U) →
      s.outOfFuel = false → unvisitedCount U s.visited ≤ fuel →
      (crawlLinks rec pageUrl b' anchors s).1.outOfFuel = false ∧
      (∀ w, w ∈ (crawlLinks rec pageUrl b' anchors s).1.visited →
        w ∈ s.visited ∨ w ∈ U) := by
  intro anchors
  induction anchors with
  | nil => intro pageUrl b' s _ _ hof _; exact ⟨hof, fun w hw => Or.inl hw⟩
  | cons a rest ih =>
    intro pageUrl b' s hbase hanch hof hcount
    have step : (crawlStep rec pageUrl b' s a).1.outOfFuel = false ∧
        (∀ w, w ∈ (crawlStep rec pageUrl b' s a).1.visited →
          w ∈ s.visited ∨ w ∈ U) ∧
        s.visited <+: (crawlStep rec pageUrl b' s a).1.visited := by
      cases a with
      | none => exact ⟨hof, fun w hw => Or.inl hw, List.prefix_refl _⟩
      | some href =>
        simp only [crawlStep]
        split
        · exact ⟨hof, fun w hw => Or.inl hw, List.prefix_refl _⟩
        · rename_i hne
          split
          · exact ⟨hof, fun w hw => Or.inl hw, List.prefix_refl _⟩
          · rename_i full hres
            rw [hbase]
            split
            · rename_i hsw
              have hin : full ∈ U := hanch href full (by simp) hne hres hsw
              obtain ⟨o1, o2⟩ := hrec _ s hin hof hcount
              exact ⟨o1, o2, hmono _ _ s⟩
            · exact ⟨hof, fun w hw => Or.inl hw, List.prefix_refl _⟩
    obtain ⟨st1, st2, st3⟩ := step
    simp only [crawlLinks]
    split
    · rename_i s' heq
      rw [heq] at st1 st2 st3
      have hcount' : unvisitedCount U s'.visited ≤ fuel :=
        Nat.le_trans (unvisitedCount_mono U st3.subset) hcount
      obtain ⟨r1, r2⟩ := ih pageUrl b' s' hbase
        (fun href full hmem => hanch href full (List.mem_cons_of_mem a hmem)) st1 hcount'
      refine ⟨r1, fun w hw => ?_⟩
      rcases r2 w hw with h' | h'
      · exact st2 w h'
      · exact Or.inr h'
    · rename_i s' e heq
      rw [heq] at st1 st2
      exact ⟨st1, st2⟩

theorem crawl_fuel_ok (F : Fetcher) (base : String) (U : List String)
    (hb : base ≠ "") (hcl : closedF F base U = true) :
    ∀ (fuel : Nat) (url : String) (b : Option String) (s : CrawlState),
      url ∈ U → pyOr b url = base → s.outOfFuel = false →
      unvisitedCount U s.visited ≤ fuel →
      (crawl F fuel url b s).outOfFuel = false ∧
      (∀ w, w ∈ (crawl F fuel url b s).visited → w ∈ s.visited ∨ w ∈ U) := by
  intro fuel
  induction fuel with
  | zero =>
    intro url b s hU _ hof hcount
    simp only [crawl]
    split
    · exact ⟨hof, fun w hw => Or.inl hw⟩
    · rename_i hvis
      exfalso
      have hmem : url ∈ U.filter (fun v => decide (v ∉ s.visited)) :=
        List.mem_filter.mpr ⟨hU, by simpa using hvis⟩
      have hpos : 0 < unvisitedCount U s.visited :=
        List.length_pos.mpr (List.ne_nil_of_mem hmem)
      omega
  | succ fuel ih =>
    intro url b s hU hbase hof hcount
    simp only [crawl]
    split
    · exact ⟨hof, fun w hw => Or.inl hw⟩
    · rename_i hvis
      have hmemvis : ∀ w, w ∈ s.visited ++ [url] → w ∈ s.visited ∨ w ∈ U := by
        intro w hw
        rcases List.mem_append.mp hw with h' | h'
        · exact Or.inl h'
        · exact Or.inr ((List.mem_singleton.mp h') ▸ hU)
      cases hF : F url with
      | error e => exact ⟨hof, hmemvis⟩
      | ok page =>
        have hcount' : unvisitedCount U (s.visited ++ [url]) ≤ fuel := by
          have := unvisitedCount_strict hU hvis
          omega
        have hrec : ∀ v t, v ∈ U → t.outOfFuel = false →
            unvisitedCount U t.visited ≤ fuel →
            (crawl F fuel v (some base) t).outOfFuel = false ∧
            (∀ w, w ∈ (crawl F fuel v (some base) t).visited →
              w ∈ t.visited ∨ w ∈ U) := by
          intro v t hv hofv hcv
          exact ih v (some base) t hv (by simp [pyOr, hb]) hofv hcv
        have hanch : ∀ href full, some href ∈ page.anchors → href ≠ "" →
            resolveLink url href = Except.ok full →
            pyStartsWith full base = true → full ∈ U :=
          fun href full ha hne hres hsw => closedF_spec hcl hU hF ha hne hres hsw
        have key := crawlLinks_fuel_ok (crawl F fuel) base U fuel hrec
          (fun v b' t => (crawl_extends F fuel v b' t).2.1) page.anchors url b
          { s with index := setIndex s.index url page.text,
                   visited := s.visited ++ [url],
                   trace := (s.trace ++ [Event.inserted url]) ++ [Event.fetched url] }
          hbase hanch hof hcount'
        rw [crawlPost_outOfFuel, crawlPost_visited]
        exact ⟨key.1, fun w hw => (key.2 w hw).elim (fun h' => hmemvis w h') Or.inr⟩

/-! ## Concrete fetchers used in witnesses and counterexamples -/

/-- A fetcher whose every page has no links. -/
def okFetcher : Fetcher := fun _ => Except.ok ⟨"hello", []⟩

/-- A fetcher where every fetch fails (the `test_crawl_error_handling`
scenario of `src/main.py`). -/
def failFetcher : Fetcher := fun _ => Except.error "Test Error"

/-- Every page links to `/` and `/about` (the `test_crawl_with_cycle`
scenario of `src/main.py`). -/
def cyclicFetcher : Fetcher := fun _ => Except.ok ⟨"Welcome!", [some "/", some "/about"]⟩

/-- The reachable in-scope URL set of `cyclicFetcher` from the seed
`https://example.com`. -/
def exampleU : List String :=
  ["https://example.com", "https://example.com/", "https://example.com/about"]

/-- Parent page with two children, the first of which fails to fetch. -/
def sibFetcher : Fetcher := fun u =>
  if u = "https://example.com" then Except.ok ⟨"parent", [some "/a", some "/b"]⟩
  else if u = "https://example.com/a" then Except.error "boom"
  else if u = "https://example.com/b" then Except.ok ⟨"bee", []⟩
  else Except.error "404"

/-- Parent page whose middle href makes `urlparse` raise a `ValueError`:
it links to `/a` (whose fetch fails), then to the bracket-mismatched
`https://example.com[x`, then to `/b` (whose fetch would succeed). -/
def valErrFetcher : Fetcher := fun u =>
  if u = "https://example.com" then
    Except.ok ⟨"parent", [some "/a", some "https://example.com[x", some "/b"]⟩
  else if u = "https://example.com/a" then Except.error "boom"
  else Except.ok ⟨"bee", []⟩

/-! ## Single-step unfolding lemmas for `crawl` -/

theorem crawlLinks_nil (rec : String → Option String → CrawlState → CrawlState)
    (pu : String) (b : Option String) (s : CrawlState) :
    crawlLinks rec pu b [] s = (s, none) :=
  rfl

theorem crawlLinks_cons_ok (rec : String → Option String → CrawlState → CrawlState)
    (pu : String) (b : Option String) (a : Option String) (rest : List (Option String))
    (s s' : CrawlState) (h : crawlStep rec pu b s a = (s', none)) :
    crawlLinks rec pu b (a :: rest) s = crawlLinks rec pu b rest s' := by
  simp only [crawlLinks]
  rw [h]

theorem crawlLinks_cons_err (rec : String → Option String → CrawlState → CrawlState)
    (pu : String) (b : Option String) (a : Option String) (rest : List (Option String))
    (s s' : CrawlState) (e : String) (h : crawlStep rec pu b s a = (s', some e)) :
    crawlLinks rec pu b (a :: rest) s = (s', some e) := by
  simp only [crawlLinks]
  rw [h]

theorem crawlLinks_append (rec : String → Option String → CrawlState → CrawlState)
    (pu : String) (b : Option String) :
    ∀ (l1 l2 : List (Option String)) (s s1 : CrawlState),
      crawlLinks rec pu b l1 s = (s1, none) →
      crawlLinks rec pu b (l1 ++ l2) s = crawlLinks rec pu b l2 s1 := by
  intro l1
  induction l1 with
  | nil =>
    intro l2 s s1 h
    have hs : s1 = s := congrArg Prod.fst h.symm
    rw [hs]
    rfl
  | cons a rest ih =>
    intro l2 s s1 h
    simp only [crawlLinks] at h
    rw [List.cons_append]
    simp only [crawlLinks]
    split at h
    · rename_i s' heq
      exact ih l2 s' s1 h
    · rename_i s' e heq
      exact absurd (congrArg Prod.snd h) (by simp)

theorem crawlStep_follow (rec : String → Option String → CrawlState → CrawlState)
    (pu : String) (b : Option String) (s : CrawlState) (href full : String)
    (hne : href ≠ "") (hres : resolveLink pu href = Except.ok full)
    (hsw : pyStartsWith full (pyOr b pu) = true) :
    crawlStep rec pu b s (some href) = (rec full (some (pyOr b pu)) s, none) := by
  simp only [crawlStep]
  rw [if_neg hne, hres]
  simp only [hsw, if_true]

theorem crawlStep_skip (rec : String → Option String → CrawlState → CrawlState)
    (pu : String) (b : Option String) (s : CrawlState) (href full : String)
    (hne : href ≠ "") (hres : resolveLink pu href = Except.ok full)
    (hsw : pyStartsWith full (pyOr b pu) = false) :
    crawlStep rec pu b s (some href) = (s, none) := by
  simp only [crawlStep]
  rw [if_neg hne, hres]
  simp only [hsw]
  rfl

theorem crawlStep_resolveErr (rec : String → Option String → CrawlState → CrawlState)
    (pu : String) (b : Option String) (s : CrawlState) (href e : String)
    (hne : href ≠ "") (hres : resolveLink pu href = Except.error e) :
    crawlStep rec pu b s (some href) = (s, some e) := by
  simp only [crawlStep]
  rw [if_neg hne, hres]

theorem crawl_ok_unfold (F : Fetcher) (fuel : Nat) (url : String) (b : Option String)
    (s : CrawlState) (page : Page)
    (hvis : url ∉ s.visited) (hF : F url = Except.ok page) :
    crawl F (fuel + 1) url b s = crawlPost url (crawlLinks (crawl F fuel) url b page.anchors
      { s with index := setIndex s.index url page.text,
               visited := s.visited ++ [url],
               trace := s.trace ++ [Event.inserted url, Event.fetched url] }) := by
  simp only [crawl]
  rw [if_neg hvis, hF, List.append_assoc]
  rfl

theorem crawl_err_unfold (F : Fetcher) (fuel : Nat) (url : String) (b : Option String)
    (s : CrawlState) (e : String)
    (hvis : url ∉ s.visited) (hF : F url = Except.error e) :
    crawl F (fuel + 1) url b s =
      { s with visited := s.visited ++ [url],
               trace := s.trace ++ [Event.inserted url, Event.fetched url],
               output := s.output ++ ["Error crawling " ++ url ++ ": " ++ e] } := by
  simp only [crawl]
  rw [if_neg hvis, hF, List.append_assoc]
  rfl

theorem pyStartsWith_empty (s : String) : pyStartsWith s "" = true := by
  show ("" : String).data.isPrefixOf s.data = true
  rw [show ("" : String).data = [] from rfl]
  exact List.isPrefixOf_nil_left

/-! ## The claims -/

/-- C1: in a traversal from a fresh crawler, every URL is inserted into the
visited set at most once (the visited list is duplicate-free and equals the
insertion events in order), every fetch is preceded by the insertion of its
URL, the fetch capability is invoked at most once per URL, and a call of
`crawl` on an already-visited URL returns its state unchanged without
fetching. -/
theorem crawl_visits_once_and_noop (F : Fetcher) (fuel : Nat) (seed : String)
    (b : Option String) :
    (crawl F fuel seed b initState).visited.Nodup ∧
    insertedEvents (crawl F fuel seed b initState).trace =
      (crawl F fuel seed b initState).visited ∧
    (fetchedEvents (crawl F fuel seed b initState).trace).Nodup ∧
    Precedes (crawl F fuel seed b initState).trace ∧
    (∀ (fuel' : Nat) (u : String) (b' : Option String) (s : CrawlState),
      u ∈ s.visited → crawl F fuel' u b' s = s) := by
  obtain ⟨h1, h2, h3, h4, h5⟩ := crawl_inv F fuel seed b initState inv_init
  exact ⟨h1, h2, h4, h5, fun fuel' u b' s h => crawl_noop F fuel' u b' s h⟩

/-- Witness for C1: a crawler that has already visited `u` is left exactly
as it is by `crawl u`. -/
theorem crawl_visits_once_and_noop_witness :
    ("u" ∈ (⟨[], ["u"], [], [], false⟩ : CrawlState).visited) ∧
    crawl failFetcher 3 "u" none ⟨[], ["u"], [], [], false⟩ =
      ⟨[], ["u"], [], [], false⟩ :=
  ⟨by decide, (crawl_visits_once_and_noop failFetcher 0 "x" none).2.2.2.2
    3 "u" none ⟨[], ["u"], [], [], false⟩ (by decide)⟩

/-- C2 (counterexample): the claim is false as stated, because the
top-level seed URL is fetched and indexed unconditionally, before any scope
test: calling `crawl` on seed `https://a.com` with explicit
`base_url="https://b.com/"` fetches and indexes `https://a.com`, which does
not start with the scope base. -/
theorem scope_containment_counterexample :
    "https://a.com" ∈ fetchedEvents (crawl okFetcher 1 "https://a.com"
      (some "https://b.com/") initState).trace ∧
    "https://a.com" ∈ indexKeys (crawl okFetcher 1 "https://a.com"
      (some "https://b.com/") initState).index ∧
    pyStartsWith "https://a.com" "https://b.com/" = false := by decide

/-- C2 (amended): apart from the top-level seed URL itself (which is
fetched unconditionally), no URL that does not start with the scope base
(the explicit non-empty `base_url` if given, else the seed) is ever fetched
or added to the index. -/
theorem scope_containment_amended (F : Fetcher) (fuel : Nat) (seed : String)
    (b : Option String) :
    ∀ u, (u ∈ fetchedEvents (crawl F fuel seed b initState).trace ∨
          u ∈ indexKeys (crawl F fuel seed b initState).index) →
      u = seed ∨ pyStartsWith u (pyOr b seed) = true := by
  intro u hu
  by_cases hb0 : pyOr b seed = ""
  · exact Or.inr (by rw [hb0]; exact pyStartsWith_empty u)
  · have aux := crawl_scope_aux F (pyOr b seed) hb0 fuel seed b initState rfl
    rcases hu with h | h
    · rcases aux.1 u h with h' | h' | h'
      · simp [initState, fetchedEvents] at h'
      · exact Or.inl h'
      · exact Or.inr h'
    · rcases aux.2 u h with h' | h' | h'
      · simp [initState, indexKeys] at h'
      · exact Or.inl h'
      · exact Or.inr h'

/-- Witness for the amended C2, at the fetched seed itself. -/
theorem scope_containment_amended_witness :
    ("https://a.com" ∈ fetchedEvents (crawl okFetcher 1 "https://a.com" none
        initState).trace ∨
      "https://a.com" ∈ indexKeys (crawl okFetcher 1 "https://a.com" none
        initState).index) ∧
    ("https://a.com" = "https://a.com" ∨
      pyStartsWith "https://a.com" (pyOr none "https://a.com") = true) :=
  ⟨Or.inl (by decide),
   scope_containment_amended okFetcher 1 "https://a.com" none "https://a.com"
     (Or.inl (by decide))⟩

/-- C3 (counterexample): the claim is false as stated, because `urlparse`
on line 29 can raise instead of classifying the href: on the bracket-
mismatched href `https://example.com[x` CPython's `urlsplit` raises
`ValueError: Invalid IPv6 URL`, so the href is neither used as-is nor
resolved against the page URL — the exception aborts the page's link loop.
Additionally a resolved href is not always the textual join: `urljoin`
strips tab/CR/LF, so `/x\t` on `https://example.com` yields
`https://example.com/x`, not `https://example.com/x\t`. -/
theorem link_resolution_counterexample :
    resolveLink "https://example.com" "https://example.com[x" =
      Except.error "Invalid IPv6 URL" ∧
    resolveLink "https://example.com" "https://example.com[x" ≠
      Except.ok "https://example.com[x" ∧
    crawlStep (fun _ _ t => t) "https://example.com" none initState
      (some "https://example.com[x") = (initState, some "Invalid IPv6 URL") ∧
    resolveLink "https://example.com" "/x\t" = Except.ok "https://example.com/x" :=
  ⟨rfl, fun h => Except.noConfusion h, rfl, rfl⟩

/-- C3 (amended): when `urlparse(href)` returns, an href with a non-empty
network location is used as the candidate absolute URL as-is, and any other
href is resolved against the current page's URL (not the scope base) by
`urljoin`; when it raises, the error propagates out of the link step and
aborts the page's link loop (the ASCII side conditions mark inputs on which
the model is exact; the resolution examples include `/about` on
`https://example.com`, an absolute external href, a relative path with
query, dot segments, and a bare fragment). -/
theorem link_resolution_amended :
    (∀ url href nl, allAscii href = true → netlocOf href = Except.ok nl →
      nl ≠ "" → resolveLink url href = Except.ok href) ∧
    (∀ url href, allAscii url = true → allAscii href = true →
      netlocOf href = Except.ok "" → resolveLink url href = urljoin url href) ∧
    (∀ url href e, netlocOf href = Except.error e →
      resolveLink url href = Except.error e) ∧
    (∀ rec pu b s href e, href ≠ "" → resolveLink pu href = Except.error e →
      crawlStep rec pu b s (some href) = (s, some e)) ∧
    (urljoin "https://example.com" "/about" = Except.ok "https://example.com/about" ∧
     resolveLink "https://example.com" "/about" =
       Except.ok "https://example.com/about" ∧
     resolveLink "https://example.com" "https://www.external.com" =
       Except.ok "https://www.external.com" ∧
     resolveLink "https://example.com/a/b" "c?q=1" =
       Except.ok "https://example.com/a/c?q=1" ∧
     resolveLink "https://example.com/a/b/c" "../d" =
       Except.ok "https://example.com/a/d" ∧
     resolveLink "https://example.com/a" "#frag" =
       Except.ok "https://example.com/a#frag") := by
  refine ⟨?_, ?_, ?_, ?_, rfl, rfl, rfl, rfl, rfl, rfl⟩
  · intro url href nl _ h hne
    unfold resolveLink
    rw [h]
    exact if_neg hne
  · intro url href _ _ h
    unfold resolveLink
    rw [h]
    rfl
  · intro url href e h
    unfold resolveLink
    rw [h]
  · intro rec pu b s href e hne hres
    exact crawlStep_resolveErr rec pu b s href e hne hres

/-- Witness for the amended C3: an absolute external href is kept as-is, a
rooted href is resolved with `urljoin`, a bracket-mismatched href
propagates the `ValueError`. -/
theorem link_resolution_amended_witness :
    (netlocOf "https://www.external.com" = Except.ok "www.external.com" ∧
      resolveLink "https://example.com" "https://www.external.com" =
        Except.ok "https://www.external.com") ∧
    (netlocOf "/about" = Except.ok "" ∧
      resolveLink "https://example.com" "/about" =
        urljoin "https://example.com" "/about") ∧
    (netlocOf "https://example.com[x" = Except.error "Invalid IPv6 URL" ∧
      resolveLink "https://example.com" "https://example.com[x" =
        Except.error "Invalid IPv6 URL") :=
  ⟨⟨rfl, link_resolution_amended.1 "https://example.com" "https://www.external.com"
      "www.external.com" (by decide) rfl (by decide)⟩,
   ⟨rfl, link_resolution_amended.2.1 "https://example.com" "/about"
      (by decide) (by decide) rfl⟩,
   ⟨rfl, link_resolution_amended.2.2.1 "https://example.com"
      "https://example.com[x" "Invalid IPv6 URL" rfl⟩⟩

/-- C4: when fetching an unvisited URL `u` fails with error `e`, the crawl
call returns with `u` marked visited, the index unchanged (so no entry for
`u` from a fresh index), no recursion (the trace grows only by `u`'s own
insert and fetch events), the diagnostic line `Error crawling u: e`
emitted, and `u` is never fetched again by any later crawl activity. -/
theorem fetch_failure_handling (F : Fetcher) (fuel : Nat) (u : String)
    (b : Option String) (s : CrawlState) (e : String)
    (hvis : u ∉ s.visited) (hF : F u = Except.error e) :
    (crawl F (fuel + 1) u b s).visited = s.visited ++ [u] ∧
    (crawl F (fuel + 1) u b s).index = s.index ∧
    (crawl F (fuel + 1) u b s).trace =
      s.trace ++ [Event.inserted u, Event.fetched u] ∧
    (crawl F (fuel + 1) u b s).output =
      s.output ++ ["Error crawling " ++ u ++ ": " ++ e] ∧
    (crawl F (fuel + 1) u b s).outOfFuel = s.outOfFuel ∧
    (∀ (fuel' : Nat) (url' : String) (b' : Option String),
      (fetchedEvents (crawl F fuel' url' b' (crawl F (fuel + 1) u b s)).trace).count u =
        (fetchedEvents (crawl F (fuel + 1) u b s).trace).count u) := by
  have hres : crawl F (fuel + 1) u b s =
      { s with visited := s.visited ++ [u],
               trace := s.trace ++ [Event.inserted u, Event.fetched u],
               output := s.output ++ ["Error crawling " ++ u ++ ": " ++ e] } := by
    simp only [crawl]
    rw [if_neg hvis, hF, List.append_assoc]
    rfl
  rw [hres]
  refine ⟨rfl, rfl, rfl, rfl, rfl, ?_⟩
  intro fuel' url' b'
  exact crawl_no_refetch F u fuel' url' b' _ (by simp)

/-- Witness for C4, at the `test_crawl_error_handling` scenario: the seed
fetch fails and the diagnostic line is emitted. -/
theorem fetch_failure_handling_witness :
    ("https://example.com" ∉ initState.visited) ∧
    (crawl failFetcher 3 "https://example.com" none initState).output =
      initState.output ++ ["Error crawling https://example.com: Test Error"] :=
  ⟨by decide,
   (fetch_failure_handling failFetcher 2 "https://example.com" none initState
     "Test Error" (by decide) rfl).2.2.2.1⟩

/-- C7: `search` returns exactly the indexed URLs whose stored text
contains the keyword as a case-insensitive substring, in the insertion
order of the index, and on an empty index it returns the empty list. -/
theorem search_correct (s : CrawlState) (keyword : String) :
    List.Sublist (search s keyword) (indexKeys s.index) ∧
    (∀ u, u ∈ search s keyword ↔
      ∃ t, (u, t) ∈ s.index ∧ pyContains (pyLower t) (pyLower keyword) = true) ∧
    search initState keyword = [] := by
  refine ⟨?_, ?_, rfl⟩
  · exact List.Sublist.map Prod.fst (List.filter_sublist s.index)
  · intro u
    simp only [search, List.mem_map, List.mem_filter]
    constructor
    · rintro ⟨⟨u', t⟩, ⟨hmem, hp⟩, rfl⟩
      exact ⟨t, hmem, hp⟩
    · rintro ⟨t, hmem, hp⟩
      exact ⟨(u, t), ⟨hmem, hp⟩, rfl⟩

/-- C8: for a non-empty result list, `print_results` prints the header
line `Search results:` followed by one `- `-prefixed line per result in
order (also for empty-string results); for an empty list it prints the
single line `No results found.`. -/
theorem print_results_correct :
    (∀ rs, rs ≠ [] →
      print_results rs = "Search results:" :: rs.map (fun r => "- " ++ r)) ∧
    print_results [] = ["No results found."] ∧
    print_results [""] = ["Search results:", "- "] := by
  refine ⟨?_, rfl, rfl⟩
  intro rs h
  simp [print_results, h]

/-- Witness for C8 on a one-element result list. -/
theorem print_results_correct_witness :
    ((["https://test.com/result1"] : List String) ≠ []) ∧
    print_results ["https://test.com/result1"] =
      ["Search results:", "- https://test.com/result1"] :=
  ⟨by decide, print_results_correct.1 ["https://test.com/result1"] (by decide)⟩

/-- C9: every key of the index is in the visited set; this containment is
preserved by `crawl` from any state satisfying it, and holds absolutely for
any traversal from a fresh crawler (search and printing are pure functions
of the state and do not modify it). -/
theorem index_keys_visited :
    (∀ (F : Fetcher) (fuel : Nat) (url : String) (b : Option String) (s : CrawlState),
      (∀ k, k ∈ indexKeys s.index → k ∈ s.visited) →
      (∀ k, k ∈ indexKeys (crawl F fuel url b s).index →
        k ∈ (crawl F fuel url b s).visited)) ∧
    (∀ (F : Fetcher) (fuel : Nat) (url : String) (b : Option String),
      ∀ k, k ∈ indexKeys (crawl F fuel url b initState).index →
        k ∈ (crawl F fuel url b initState).visited) := by
  have main : ∀ (F : Fetcher) (fuel : Nat) (url : String) (b : Option String)
      (s : CrawlState), (∀ k, k ∈ indexKeys s.index → k ∈ s.visited) →
      (∀ k, k ∈ indexKeys (crawl F fuel url b s).index →
        k ∈ (crawl F fuel url b s).visited) := by
    intro F fuel url b s h
    refine crawl_pres F (fun t => ∀ k, k ∈ indexKeys t.index → k ∈ t.visited)
      ?_ ?_ ?_ ?_ fuel url b s h
    · intro t v _ hP k hk
      exact List.mem_append_left _ (hP k hk)
    · intro t v w hv hP k hk
      rcases mem_indexKeys_setIndex_cases hk with h' | h'
      · exact hP k h'
      · exact h' ▸ hv
    · intro t line hP; exact hP
    · intro t hP; exact hP
  exact ⟨main, fun F fuel url b => main F fuel url b initState
    (fun k hk => by simp [initState, indexKeys] at hk)⟩

/-- Witness for C9: containment after crawling one page from a fresh
crawler, starting from the trivially-contained empty state. -/
theorem index_keys_visited_witness :
    (∀ k, k ∈ indexKeys initState.index → k ∈ initState.visited) ∧
    (∀ k, k ∈ indexKeys (crawl okFetcher 1 "https://a.com" none initState).index →
      k ∈ (crawl okFetcher 1 "https://a.com" none initState).visited) :=
  ⟨fun k hk => by simp [initState, indexKeys] at hk,
   index_keys_visited.1 okFetcher 1 "https://a.com" none initState
     (fun k hk => by simp [initState, indexKeys] at hk)⟩

/-- A link's href is truthy in Python iff it is present and non-empty. -/
def hrefTruthy : Option String → Bool
  | none => false
  | some h => if h = "" then false else true

/-- C10: an anchor with a missing or empty href is skipped entirely by the
link loop: the per-anchor step leaves the state unchanged, and the loop
behaves exactly as if those anchors were absent. -/
theorem falsy_href_skipped (rec : String → Option String → CrawlState → CrawlState)
    (pageUrl : String) (b : Option String) :
    (∀ s, crawlStep rec pageUrl b s none = (s, none)) ∧
    (∀ s, crawlStep rec pageUrl b s (some "") = (s, none)) ∧
    (∀ anchors s, crawlLinks rec pageUrl b anchors s =
      crawlLinks rec pageUrl b (anchors.filter hrefTruthy) s) := by
  refine ⟨fun s => rfl, fun s => rfl, ?_⟩
  intro anchors
  induction anchors with
  | nil => intro s; rfl
  | cons a rest ih =>
    intro s
    cases a with
    | none =>
      rw [show (none :: rest).filter hrefTruthy = rest.filter hrefTruthy by
        simp [List.filter_cons, hrefTruthy]]
      exact ih s
    | some h =>
      by_cases hh : h = ""
      · subst hh
        rw [show (some "" :: rest).filter hrefTruthy = rest.filter hrefTruthy by
          simp [List.filter_cons, hrefTruthy]]
        exact ih s
      · rw [show (some h :: rest).filter hrefTruthy =
            some h :: rest.filter hrefTruthy by simp [List.filter_cons, hrefTruthy, hh]]
        simp only [crawlLinks]
        split
        · rename_i s' heq
          exact ih s'
        · rfl

/-- C5 (counterexample): the claim is false as stated.  The parent page
links, in order, to `/a` (whose target's fetch fails and is recovered
locally), to `https://example.com[x` (on which `urlparse` raises
`ValueError: Invalid IPv6 URL`, aborting the rest of the parent's link
loop), and then to `/b`.  Sibling `https://example.com/b` — in scope,
resolvable, fetchable, unvisited — is never fetched and never indexed, and
the parent frame prints its own diagnostic line instead: a failure inside
one sibling's iteration can be fatal to the remaining siblings. -/
theorem failure_isolation_counterexample :
    (Event.fetched "https://example.com/a" ∈
        (crawl valErrFetcher 3 "https://example.com" none initState).trace ∧
      "Error crawling https://example.com/a: boom" ∈
        (crawl valErrFetcher 3 "https://example.com" none initState).output) ∧
    (resolveLink "https://example.com" "/b" = Except.ok "https://example.com/b" ∧
      pyStartsWith "https://example.com/b" "https://example.com" = true ∧
      valErrFetcher "https://example.com/b" = Except.ok ⟨"bee", []⟩) ∧
    Event.fetched "https://example.com/b" ∉
      (crawl valErrFetcher 3 "https://example.com" none initState).trace ∧
    "https://example.com/b" ∉
      indexKeys (crawl valErrFetcher 3 "https://example.com" none initState).index ∧
    "Error crawling https://example.com: Invalid IPv6 URL" ∈
      (crawl valErrFetcher 3 "https://example.com" none initState).output :=
  ⟨⟨by decide, by decide⟩, ⟨rfl, by decide, rfl⟩, by decide, by decide, by decide⟩

/-- C5 (amended): a fetch failure in itself aborts nothing.  If page `P`'s
anchors are `pre ++ hA :: mid ++ hB :: post` where the loop runs over `pre`
and `mid` finish without a pending exception, `hA` and `hB` resolve
in scope to `A` and `B`, `A`'s fetch fails while `B`'s succeeds, then the
loop step on `hA` completes without an exception, `A`'s diagnostic line is
in the final output, and `B` is still fetched and indexed.  Only an
intervening href on which `urlparse` raises can abort the remaining
siblings (see the counterexample). -/
theorem failure_isolation_amended (F : Fetcher) (fuel : Nat) (P : String)
    (b : Option String) (s s1 s2 : CrawlState) (page : Page)
    (pre mid post : List (Option String)) (hA hB A B e : String) (pageB : Page)
    (hPvis : P ∉ s.visited)
    (hFP : F P = Except.ok page)
    (hanch : page.anchors = pre ++ some hA :: mid ++ some hB :: post)
    (hhA : hA ≠ "") (hhB : hB ≠ "")
    (hAres : resolveLink P hA = Except.ok A)
    (hBres : resolveLink P hB = Except.ok B)
    (hSA : pyStartsWith A (pyOr b P) = true)
    (hSB : pyStartsWith B (pyOr b P) = true)
    (hpre : crawlLinks (crawl F (fuel + 1)) P b pre
      { s with index := setIndex s.index P page.text,
               visited := s.visited ++ [P],
               trace := s.trace ++ [Event.inserted P, Event.fetched P] } = (s1, none))
    (hAvis : A ∉ s1.visited)
    (hAfail : F A = Except.error e)
    (hmid : crawlLinks (crawl F (fuel + 1)) P b mid
      { s1 with visited := s1.visited ++ [A],
                trace := s1.trace ++ [Event.inserted A, Event.fetched A],
                output := s1.output ++ ["Error crawling " ++ A ++ ": " ++ e] }
      = (s2, none))
    (hBvis : B ∉ s2.visited)
    (hBok : F B = Except.ok pageB) :
    (crawlStep (crawl F (fuel + 1)) P b s1 (some hA)).2 = none ∧
    ("Error crawling " ++ A ++ ": " ++ e) ∈ (crawl F (fuel + 1 + 1) P b s).output ∧
    Event.fetched B ∈ (crawl F (fuel + 1 + 1) P b s).trace ∧
    B ∈ indexKeys (crawl F (fuel + 1 + 1) P b s).index := by
  have hstepA : crawlStep (crawl F (fuel + 1)) P b s1 (some hA) =
      ({ s1 with visited := s1.visited ++ [A],
                 trace := s1.trace ++ [Event.inserted A, Event.fetched A],
                 output := s1.output ++ ["Error crawling " ++ A ++ ": " ++ e] },
       none) := by
    rw [crawlStep_follow _ P b s1 hA A hhA hAres hSA,
        crawl_err_unfold F fuel A (some (pyOr b P)) s1 e hAvis hAfail]
  have hstepB : crawlStep (crawl F (fuel + 1)) P b s2 (some hB) =
      (crawl F (fuel + 1) B (some (pyOr b P)) s2, none) :=
    crawlStep_follow _ P b s2 hB B hhB hBres hSB
  have echain : crawl F (fuel + 1 + 1) P b s =
      crawlPost P (crawlLinks (crawl F (fuel + 1)) P b post
        (crawl F (fuel + 1) B (some (pyOr b P)) s2)) := by
    have hfirst : crawlLinks (crawl F (fuel + 1)) P b (pre ++ (some hA :: mid))
        { s with index := setIndex s.index P page.text,
                 visited := s.visited ++ [P],
                 trace := s.trace ++ [Event.inserted P, Event.fetched P] } =
        (s2, none) := by
      rw [crawlLinks_append _ P b pre (some hA :: mid) _ s1 hpre,
          crawlLinks_cons_ok _ P b (some hA) mid s1 _ hstepA, hmid]
    rw [crawl_ok_unfold F (fuel + 1) P b s page hPvis hFP, hanch,
        crawlLinks_append _ P b (pre ++ (some hA :: mid)) (some hB :: post) _ s2 hfirst,
        crawlLinks_cons_ok _ P b (some hB) post s2 _ hstepB]
  have hE1 : Extends { s1 with visited := s1.visited ++ [A],
                               trace := s1.trace ++ [Event.inserted A, Event.fetched A],
                               output := s1.output ++
                                 ["Error crawling " ++ A ++ ": " ++ e] } s2 := by
    have h := crawlLinks_extends F (fuel + 1) P b mid
      { s1 with visited := s1.visited ++ [A],
                trace := s1.trace ++ [Event.inserted A, Event.fetched A],
                output := s1.output ++ ["Error crawling " ++ A ++ ": " ++ e] }
    rw [hmid] at h
    exact h
  have hBunf : crawl F (fuel + 1) B (some (pyOr b P)) s2 =
      crawlPost B (crawlLinks (crawl F fuel) B (some (pyOr b P)) pageB.anchors
        { s2 with index := setIndex s2.index B pageB.text,
                  visited := s2.visited ++ [B],
                  trace := s2.trace ++ [Event.inserted B, Event.fetched B] }) :=
    crawl_ok_unfold F fuel B (some (pyOr b P)) s2 pageB hBvis hBok
  have hE2 : Extends { s2 with index := setIndex s2.index B pageB.text,
                               visited := s2.visited ++ [B],
                               trace := s2.trace ++
                                 [Event.inserted B, Event.fetched B] }
      (crawl F (fuel + 1) B (some (pyOr b P)) s2) := by
    rw [hBunf]
    exact extends_trans (crawlLinks_extends F fuel B (some (pyOr b P)) pageB.anchors _)
      (crawlPost_extends B _)
  have hE3 : Extends (crawl F (fuel + 1) B (some (pyOr b P)) s2)
      (crawlPost P (crawlLinks (crawl F (fuel + 1)) P b post
        (crawl F (fuel + 1) B (some (pyOr b P)) s2))) :=
    extends_trans (crawlLinks_extends F (fuel + 1) P b post _) (crawlPost_extends P _)
  have hEfin : Extends { s2 with index := setIndex s2.index B pageB.text,
                                 visited := s2.visited ++ [B],
                                 trace := s2.trace ++
                                   [Event.inserted B, Event.fetched B] }
      (crawl F (fuel + 1 + 1) P b s) := by
    rw [echain]
    exact extends_trans hE2 hE3
  have hX : Extends s2 { s2 with index := setIndex s2.index B pageB.text,
                                 visited := s2.visited ++ [B],
                                 trace := s2.trace ++
                                   [Event.inserted B, Event.fetched B] } :=
    ⟨List.prefix_append _ _, List.prefix_append _ _, List.prefix_refl _,
     fun k hk => mem_indexKeys_setIndex B pageB.text hk, id⟩
  have hEA : Extends { s1 with visited := s1.visited ++ [A],
                               trace := s1.trace ++ [Event.inserted A, Event.fetched A],
                               output := s1.output ++
                                 ["Error crawling " ++ A ++ ": " ++ e] }
      (crawl F (fuel + 1 + 1) P b s) :=
    extends_trans hE1 (extends_trans hX hEfin)
  refine ⟨by rw [hstepA], ?_, ?_, ?_⟩
  · exact hEA.2.2.1.subset (by simp)
  · exact hEfin.1.subset (by simp)
  · exact hEfin.2.2.2.1 B (self_mem_indexKeys_setIndex s2.index B pageB.text)

/-- Witness for the amended C5, at the `sibFetcher` scenario: the parent
links to `/a` (fetch fails) and `/b` (fetched and indexed), with no other
anchors in between. -/
theorem failure_isolation_amended_witness :
    (crawlStep (crawl sibFetcher 2) "https://example.com" none
      ⟨[("https://example.com", "parent")], ["https://example.com"],
       [Event.inserted "https://example.com", Event.fetched "https://example.com"],
       [], false⟩ (some "/a")).2 = none ∧
    ("Error crawling " ++ "https://example.com/a" ++ ": " ++ "boom") ∈
      (crawl sibFetcher 3 "https://example.com" none initState).output ∧
    Event.fetched "https://example.com/b" ∈
      (crawl sibFetcher 3 "https://example.com" none initState).trace ∧
    "https://example.com/b" ∈
      indexKeys (crawl sibFetcher 3 "https://example.com" none initState).index :=
  failure_isolation_amended sibFetcher 1 "https://example.com" none initState
    ⟨[("https://example.com", "parent")], ["https://example.com"],
     [Event.inserted "https://example.com", Event.fetched "https://example.com"],
     [], false⟩
    ⟨[("https://example.com", "parent")],
     ["https://example.com", "https://example.com/a"],
     [Event.inserted "https://example.com", Event.fetched "https://example.com",
      Event.inserted "https://example.com/a", Event.fetched "https://example.com/a"],
     ["Error crawling https://example.com/a: boom"], false⟩
    ⟨"parent", [some "/a", some "/b"]⟩
    [] [] [] "/a" "/b" "https://example.com/a" "https://example.com/b"
    "boom" ⟨"bee", []⟩
    (by decide) rfl rfl (by decide) (by decide) rfl rfl (by decide) (by decide)
    rfl (by decide) rfl rfl (by decide) rfl

/-- C6: for a fetcher whose reachable in-scope URL set is confined to the
finite list `U`, a fuel bound of `U.length` suffices: the recursion depth
bound is never hit (the Python recursion terminates), each URL is fetched
at most once, every fetched URL lies in `U`; and on the concrete cyclic
two-page graph the crawl performs exactly the 3 expected fetches. -/
theorem termination_finite_scope (F : Fetcher) (U : List String) (seed : String)
    (b : Option String) (fuel : Nat)
    (hb : pyOr b seed ≠ "") (hseed : seed ∈ U)
    (hcl : closedF F (pyOr b seed) U = true) (hfuel : U.length ≤ fuel) :
    (crawl F fuel seed b initState).outOfFuel = false ∧
    (fetchedEvents (crawl F fuel seed b initState).trace).Nodup ∧
    (∀ u, u ∈ fetchedEvents (crawl F fuel seed b initState).trace → u ∈ U) ∧
    fetchedEvents (crawl cyclicFetcher 3 "https://example.com" none initState).trace =
      ["https://example.com", "https://example.com/", "https://example.com/about"] := by
  have hcount : unvisitedCount U initState.visited ≤ fuel := by
    rw [show initState.visited = ([] : List String) from rfl, unvisitedCount_nil]
    exact hfuel
  obtain ⟨h1, h2⟩ := crawl_fuel_ok F (pyOr b seed) U hb hcl fuel seed b initState
    hseed rfl rfl hcount
  obtain ⟨-, -, hfetvis, hnodup, -⟩ := crawl_inv F fuel seed b initState inv_init
  refine ⟨h1, hnodup, fun u hu => ?_, by decide⟩
  rcases h2 u (hfetvis u hu) with h' | h'
  · simp [initState] at h'
  · exact h'

/-- Witness for C6, at the cyclic two-page scenario with fuel 5. -/
theorem termination_finite_scope_witness :
    (pyOr none "https://example.com" ≠ "" ∧ "https://example.com" ∈ exampleU ∧
      closedF cyclicFetcher (pyOr none "https://example.com") exampleU = true ∧
      exampleU.length ≤ 5) ∧
    (crawl cyclicFetcher 5 "https://example.com" none initState).outOfFuel = false :=
  ⟨⟨by decide, by decide, by decide, by decide⟩,
   (termination_finite_scope cyclicFetcher exampleU "https://example.com" none 5
     (by decide) (by decide) (by decide) (by decide)).1⟩

end WebCrawl
